import Mathlib

/-!
Verification of the `pyAddict/Basics` repository core: the `ChainedCondition`
builder / dispatcher of `streamAPI/stream/streamHelper.py`, the
`divide_in_chunk` helper of `utility/utils.py`, and the `Stream.reduce` /
`Stream.zip_longest` operations (whose implementation module is not part of the
examined sources; they are modelled from the specification and anchored on the
repository's own tests in `streamAPI/test/stream/stream/stream_test.py`).

Machine integers play no role here; elements are opaque values of a type
parameter, and all collections are Lean lists (Python's `deque` is only ever
appended on the right and iterated left to right, so it is a list appended at
the tail).
-/

namespace Basics

/-- Error kinds of the pipeline state machines (spec section 7).  The sources
raise `PipelineNOTClosed` (from `streamAPI.stream.exception`) in
`ChainedCondition.apply`; `otherwise` raises `AttributeError("No 'if' condition
added.")`, which the spec classifies as the `NoConditionDefined` kind; the
`check_pipeline` decorator guarding `if_then` raises the
`PipelineAlreadyClosed` kind. -/
inductive Err where
  | PipelineNOTClosed
  | PipelineAlreadyClosed
  | NoConditionDefined
  deriving DecidableEq, Repr

/-- Branch of a `ChainedCondition`: the `_IfThen` class of
`streamHelper.py` — a predicate `_if` and a transform `_func`. -/
structure IfThen (α : Type) where
  _if : α → Bool
  _func : α → α

/-- Translation of `_IfThen.apply`:
`return Optional(self._func(e)) if self._if(e) else EMPTY`.
The `Optional` container (module `streamAPI.stream.optional`, not among the
examined sources) is modelled from the spec as a value-or-absence container,
i.e. Lean's `Option`; `EMPTY` is `none`. -/
def IfThen.apply {α : Type} (c : IfThen α) (e : α) : Option α :=
  if c._if e then some (c._func e) else none

/-- State of a `ChainedCondition` object: the fields set by
`ChainedCondition.__init__` — the ordered branch deque `_conditions`, the
`_closed` flag, the optional `_name`, and the `_else_called` flag. -/
structure ChainedCondition (α : Type) where
  _conditions : List (IfThen α)
  _closed : Bool
  _name : Option String
  _else_called : Bool

namespace ChainedCondition

/-- Translation of `ChainedCondition.__init__(self, name=None)`:
fresh OPEN instance with zero branches. -/
def new {α : Type} (name : Option String) : ChainedCondition α :=
  { _conditions := [], _closed := false, _name := name, _else_called := false }

/-- Modelled from the spec: `always_true` is imported from
`streamAPI.utility.utils`, a module not among the examined sources; per spec
section 4.3 it is the predicate of the "final always-matching branch" appended
by `otherwise`. -/
def always_true {α : Type} (_ : α) : Bool :=
  true

/-- Translation of `ChainedCondition.if_then`: appends an `_IfThen` branch and
returns `self`.  The guarding `check_pipeline` decorator lives in
`streamAPI.stream.decos`, a module not among the examined sources; it is
modelled from the spec: "`if_then` requires OPEN; fails with
`PipelineAlreadyClosed` if CLOSED" (spec section 4.3). -/
def if_then {α : Type} (cc : ChainedCondition α) (predicate : α → Bool)
    (func : α → α) : Except Err (ChainedCondition α) :=
  if cc._closed then
    .error .PipelineAlreadyClosed
  else
    .ok { cc with _conditions := cc._conditions ++ [⟨predicate, func⟩] }

/-- Translation of `ChainedCondition.otherwise`: raises when no branch is
present (`AttributeError("No 'if' condition added.")`, the
`NoConditionDefined` kind), otherwise delegates to
`if_then(always_true, func)`.  The `close_pipeline` decorator and the setting
of `_else_called` live in modules not among the examined sources; they are
modelled from the spec: "appends a final always-matching branch running
`transform`; transitions to CLOSED" (section 4.3) and "`describe()` reports
whether an `otherwise` fallback is present" (so `otherwise`, and only
`otherwise`, records the fallback in `_else_called`). -/
def otherwise {α : Type} (cc : ChainedCondition α) (func : α → α) :
    Except Err (ChainedCondition α) :=
  if cc._conditions.isEmpty then
    .error .NoConditionDefined
  else
    match cc.if_then always_true func with
    | .error e => .error e
    | .ok cc2 => .ok { cc2 with _closed := true, _else_called := true }

/-- Translation of `ChainedCondition.done`: returns `self`; the
`close_pipeline` decorator (not among the examined sources) is modelled from
the spec: "`done()` transitions to CLOSED without adding a fallback"
(spec section 4.3). -/
def done {α : Type} (cc : ChainedCondition α) : ChainedCondition α :=
  { cc with _closed := true }

/-- Translation of the branch scan of `ChainedCondition.apply`:
`for condition in self._conditions: y = condition.apply(e); if y is not EMPTY:
return y.get()` with the `for ... else` clause returning `e`. -/
def applyConds {α : Type} : List (IfThen α) → α → α
  | [], e => e
  | c :: cs, e =>
    match c.apply e with
    | some y => y
    | none => applyConds cs e

/-- Translation of `ChainedCondition.apply`: raises `PipelineNOTClosed` while
OPEN, otherwise scans the branches.  The method body writes no attribute of
`self`, so the post state of the object is the receiver itself; `apply` is
modelled operationally as returning the result together with that post
state. -/
def apply {α : Type} (cc : ChainedCondition α) (e : α) :
    Except Err (α × ChainedCondition α) :=
  if cc._closed = false then
    .error .PipelineNOTClosed
  else
    .ok (applyConds cc._conditions e, cc)

/-- Translation of the classmethod `ChainedCondition.if_else`:
`cls().if_then(predicate, if_).otherwise(else_)`. -/
def if_else {α : Type} (predicate : α → Bool) (if_ : α → α) (else_ : α → α) :
    Except Err (ChainedCondition α) :=
  match (new none : ChainedCondition α).if_then predicate if_ with
  | .error e => .error e
  | .ok cc => cc.otherwise else_

/-- Translation of `ChainedCondition.default_name`.  Apostrophes of the
Python string literals are written with the `\x27` escape; the
`'s' if size > 3 else ''` pluralisation inside the format strings is rendered
by duplicating the surrounding literal in the two arms of the test. -/
def default_name {α : Type} (cc : ChainedCondition α) : String :=
  let size := cc._conditions.length
  if size = 0 then
    "ChainedCondition has not defined any condition"
  else if size = 1 then
    "ChainedCondition defines \x27if\x27 condition"
  else if cc._else_called then
    if size = 2 then
      "ChainedCondition defines \x27if\x27 and \x27else\x27 condition"
    else if size > 3 then
      ("ChainedCondition defines \x27if\x27 then " ++ Nat.repr (size - 2)) ++
        " elif conditions and \x27else\x27 condition"
    else
      ("ChainedCondition defines \x27if\x27 then " ++ Nat.repr (size - 2)) ++
        " elif condition and \x27else\x27 condition"
  else
    if size > 2 then
      ("ChainedCondition defines \x27if\x27 then " ++ Nat.repr (size - 1)) ++
        " elif conditions"
    else
      ("ChainedCondition defines \x27if\x27 then " ++ Nat.repr (size - 1)) ++
        " elif condition"

/-- Translation of `ChainedCondition.__str__`:
`return self._name or self.default_name()` (a `None` or empty — falsy — name
falls back to `default_name`). -/
def toStr {α : Type} (cc : ChainedCondition α) : String :=
  match cc._name with
  | some n => if n = "" then cc.default_name else n
  | none => cc.default_name

end ChainedCondition

/-- Translation of the loop `for i in range(0, len(docs), chunk_size): yield
docs[i:i+chunk_size]` in the else-branch of `divide_in_chunk`
(`utility/utils.py`): successive slices of width `cs` are the head `take cs`
followed by the slices of `drop cs`.  The loop performs at most `len docs`
iterations (each one consumes at least one element, `range` having a positive
step there), so a structural fuel argument of `docs.length` reproduces it
exactly while keeping the function kernel-reducible. -/
def slicesGo {α : Type} (cs : Nat) : Nat → List α → List (List α)
  | _, [] => []
  | 0, _ :: _ => []
  | fuel + 1, x :: xs => ((x :: xs).take cs) :: slicesGo cs fuel ((x :: xs).drop cs)

/-- Translation of `divide_in_chunk(docs, chunk_size)` (`utility/utils.py`
lines 254-267): `if len(docs) <= chunk_size: yield docs` else the slicing
loop. -/
def divide_in_chunk {α : Type} (docs : List α) (chunk_size : Nat) :
    List (List α) :=
  if docs.length ≤ chunk_size then [docs]
  else slicesGo chunk_size docs.length docs

/-- Modelled from the spec: `Stream.reduce` (module `streamAPI.stream.stream`,
not among the examined sources).  Spec section 4.6: left fold in source order;
empty source without `initial_point` gives `Optional.empty()`; a present
`initial_point` seeds the fold regardless of emptiness; otherwise the first
element seeds the fold.  `Optional` is modelled as Lean's `Option`. -/
def streamReduce {α : Type} (source : List α) (op : α → α → α)
    (initial_point : Option α) : Option α :=
  match initial_point with
  | some v => some (source.foldl op v)
  | none =>
    match source with
    | [] => none
    | x :: xs => some (xs.foldl op x)

/-- Element of `l` at position `i`, or `fillvalue` once `l` is exhausted —
the per-sequence behaviour of `itertools.zip_longest`. -/
def getFill {α : Type} (l : List α) (i : Nat) (fillvalue : α) : α :=
  (l.get? i).getD fillvalue

/-- Length of the longest of the stream's own sequence and the `others`. -/
def maxLen {α : Type} (self : List α) (others : List (List α)) : Nat :=
  ((self :: others).map List.length).foldr max 0

/-- Modelled from the spec: `Stream.zip_longest` (module
`streamAPI.stream.stream`, not among the examined sources).  Spec sections 4.5
and 8: continues until the longest of all sequences is exhausted; an exhausted
sequence contributes `fillvalue`; with `after = true` the stream's own element
comes first, followed by the other sequences in argument order, with
`after = false` the others come first and the own element last.  Output rows
(Python tuples) are modelled as lists over the common element type. -/
def zip_longest {α : Type} (self : List α) (others : List (List α))
    (after : Bool) (fillvalue : α) : List (List α) :=
  (List.range (maxLen self others)).map (fun i =>
    if after then
      getFill self i fillvalue :: others.map (fun o => getFill o i fillvalue)
    else
      others.map (fun o => getFill o i fillvalue) ++ [getFill self i fillvalue])

/-! Theorems about `ChainedCondition`. -/

/-- Reading of the scan algorithm as the spec words it: the transform of the
first branch whose predicate returns true on `e`, and `e` itself when no
branch matches. -/
def firstMatch {α : Type} (conds : List (IfThen α)) (e : α) : α :=
  match conds.find? (fun c => c._if e) with
  | some b => b._func e
  | none => e

theorem applyConds_eq_firstMatch {α : Type} (conds : List (IfThen α)) (e : α) :
    ChainedCondition.applyConds conds e = firstMatch conds e := by
  induction conds with
  | nil => rfl
  | cons c cs ih =>
    unfold ChainedCondition.applyConds firstMatch
    cases h : c._if e <;>
      simp [IfThen.apply, h, ih, List.find?, firstMatch]

theorem firstMatch_append_skip {α : Type} (pre : List (IfThen α))
    (b : IfThen α) (post : List (IfThen α)) (e : α)
    (hpre : ∀ c ∈ pre, c._if e = false) (hb : b._if e = true) :
    firstMatch (pre ++ b :: post) e = b._func e := by
  unfold firstMatch
  rw [List.find?_append]
  have hnone : pre.find? (fun c => c._if e) = none :=
    List.find?_eq_none.mpr (by simpa using hpre)
  simp [hnone, List.find?, hb]

/-- C1: on a CLOSED `ChainedCondition`, `apply e` returns the transform of the
first branch (in insertion order) whose predicate holds on `e`; the result is
independent of all branches after the first match (predicates past the first
match play no role), and if no branch matches, `e` is returned unchanged. -/
theorem C1_apply_first_match {α : Type} (cc : ChainedCondition α) (e : α)
    (h : cc._closed = true) :
    cc.apply e = .ok (firstMatch cc._conditions e, cc) ∧
    (∀ pre (b : IfThen α) post post', cc._conditions = pre ++ b :: post →
      (∀ c ∈ pre, c._if e = false) → b._if e = true →
      ChainedCondition.apply { cc with _conditions := pre ++ b :: post' } e =
        .ok (b._func e, { cc with _conditions := pre ++ b :: post' })) ∧
    ((∀ c ∈ cc._conditions, c._if e = false) → cc.apply e = .ok (e, cc)) := by
  refine ⟨?_, ?_, ?_⟩
  · simp [ChainedCondition.apply, h, applyConds_eq_firstMatch]
  · intro pre b post post' _ hpre hb
    simp [ChainedCondition.apply, h, applyConds_eq_firstMatch,
      firstMatch_append_skip pre b post' e hpre hb]
  · intro hall
    have : cc._conditions.find? (fun c => c._if e) = none :=
      List.find?_eq_none.mpr (by simpa using hall)
    simp [ChainedCondition.apply, h, applyConds_eq_firstMatch, firstMatch, this]

/-- Concrete two-branch CLOSED instance used by witnesses: maps even numbers
through `+ 1`, numbers above 10 through `* 2`. -/
def ccTwoBranch : ChainedCondition Nat :=
  { _conditions := [⟨fun x => decide (x % 2 = 0), fun x => x + 1⟩,
                    ⟨fun x => decide (10 < x), fun x => x * 2⟩],
    _closed := true, _name := none, _else_called := false }

theorem C1_apply_first_match_witness :
    ccTwoBranch._closed = true ∧
    (ccTwoBranch.apply 4 = .ok (firstMatch ccTwoBranch._conditions 4, ccTwoBranch) ∧
      (∀ pre (b : IfThen Nat) post post', ccTwoBranch._conditions = pre ++ b :: post →
        (∀ c ∈ pre, c._if 4 = false) → b._if 4 = true →
        ChainedCondition.apply { ccTwoBranch with _conditions := pre ++ b :: post' } 4 =
          .ok (b._func 4, { ccTwoBranch with _conditions := pre ++ b :: post' })) ∧
      ((∀ c ∈ ccTwoBranch._conditions, c._if 4 = false) →
        ccTwoBranch.apply 4 = .ok (4, ccTwoBranch))) :=
  ⟨rfl, C1_apply_first_match ccTwoBranch 4 rfl⟩

/-- C4: once CLOSED, `if_then` always fails with the `PipelineAlreadyClosed`
kind, and `apply` always succeeds with the receiver itself as post state — the
branch list and the closed flag are untouched, so a CLOSED instance can be
applied any number of times with identical behaviour. -/
theorem C4_closed_terminal {α : Type} (cc : ChainedCondition α)
    (h : cc._closed = true) :
    (∀ (p : α → Bool) (f : α → α), cc.if_then p f = .error .PipelineAlreadyClosed) ∧
    (∀ e : α, ∃ y : α, cc.apply e = .ok (y, cc)) := by
  constructor
  · intro p f
    simp [ChainedCondition.if_then, h]
  · intro e
    exact ⟨ChainedCondition.applyConds cc._conditions e,
      by simp [ChainedCondition.apply, h]⟩

theorem C4_closed_terminal_witness :
    ccTwoBranch._closed = true ∧
    ((∀ (p : Nat → Bool) (f : Nat → Nat),
        ccTwoBranch.if_then p f = .error .PipelineAlreadyClosed) ∧
      (∀ e : Nat, ∃ y : Nat, ccTwoBranch.apply e = .ok (y, ccTwoBranch))) :=
  ⟨rfl, C4_closed_terminal ccTwoBranch rfl⟩

/-- C5: on an OPEN instance, `otherwise` fails with the `NoConditionDefined`
kind when no branch is present (leaving nothing appended, since the failure
carries no new state); with at least one branch it appends exactly one final
branch whose predicate is true on every element and whose transform is the
given one, closes the instance, and returns that updated instance. -/
theorem C5_otherwise {α : Type} (cc : ChainedCondition α) (f : α → α)
    (h : cc._closed = false) :
    (cc._conditions = [] → cc.otherwise f = .error .NoConditionDefined) ∧
    (cc._conditions ≠ [] → ∃ b : IfThen α,
      cc.otherwise f = .ok { cc with _conditions := cc._conditions ++ [b],
                                     _closed := true, _else_called := true } ∧
      (∀ e : α, b._if e = true) ∧ b._func = f) := by
  constructor
  · intro hnil
    simp [ChainedCondition.otherwise, hnil]
  · intro hne
    refine ⟨⟨ChainedCondition.always_true, f⟩, ?_, fun e => rfl, rfl⟩
    simp [ChainedCondition.otherwise, ChainedCondition.if_then, h,
      List.isEmpty_iff, hne]

/-- Concrete OPEN one-branch instance used by witnesses. -/
def ccOpenOne : ChainedCondition Nat :=
  { _conditions := [⟨fun x => decide (x % 2 = 0), fun x => x + 1⟩],
    _closed := false, _name := none, _else_called := false }

theorem C5_otherwise_witness :
    ccOpenOne._closed = false ∧
    ((ccOpenOne._conditions = [] →
        ccOpenOne.otherwise (fun x => x * 3) = .error .NoConditionDefined) ∧
      (ccOpenOne._conditions ≠ [] → ∃ b : IfThen Nat,
        ccOpenOne.otherwise (fun x => x * 3) =
          .ok { ccOpenOne with _conditions := ccOpenOne._conditions ++ [b],
                               _closed := true, _else_called := true } ∧
        (∀ e : Nat, b._if e = true) ∧ b._func = fun x => x * 3)) :=
  ⟨rfl, C5_otherwise ccOpenOne (fun x => x * 3) rfl⟩

/-- C6: on an OPEN instance, `apply` fails with the `PipelineNOTClosed` kind
for every element, whatever the branch list is (including the empty one) — no
branch predicate or transform takes part in the outcome. -/
theorem C6_apply_open_fails {α : Type} (cc : ChainedCondition α) (e : α)
    (h : cc._closed = false) :
    cc.apply e = .error .PipelineNOTClosed ∧
    (∀ conds : List (IfThen α),
      ChainedCondition.apply { cc with _conditions := conds } e =
        .error .PipelineNOTClosed) := by
  constructor
  · simp [ChainedCondition.apply, h]
  · intro conds
    simp [ChainedCondition.apply, h]

theorem C6_apply_open_fails_witness :
    ccOpenOne._closed = false ∧
    (ccOpenOne.apply 7 = .error .PipelineNOTClosed ∧
      (∀ conds : List (IfThen Nat),
        ChainedCondition.apply { ccOpenOne with _conditions := conds } 7 =
          .error .PipelineNOTClosed)) :=
  ⟨rfl, C6_apply_open_fails ccOpenOne 7 rfl⟩

/-- C8: the `if_else` factory succeeds, and its result is exactly the instance
obtained from a fresh `ChainedCondition` by `if_then(p, f)` followed by
`otherwise(g)`: a CLOSED instance whose `apply` maps every element `e` to
`f e` when `p e` holds and to `g e` otherwise (with the instance itself
unchanged as post state). -/
theorem C8_if_else_factory {α : Type} (p : α → Bool) (f g : α → α) :
    ∃ cc : ChainedCondition α,
      ChainedCondition.if_else p f g = .ok cc ∧
      (∃ cc1 : ChainedCondition α,
        (ChainedCondition.new none).if_then p f = .ok cc1 ∧
        cc1.otherwise g = .ok cc) ∧
      cc._closed = true ∧
      (∀ e : α, cc.apply e = .ok ((if p e then f e else g e), cc)) := by
  refine ⟨{ _conditions := [⟨p, f⟩, ⟨ChainedCondition.always_true, g⟩],
            _closed := true, _name := none, _else_called := true }, ?_, ?_, rfl, ?_⟩
  · simp [ChainedCondition.if_else, ChainedCondition.new,
      ChainedCondition.if_then, ChainedCondition.otherwise]
  · refine ⟨{ _conditions := [⟨p, f⟩], _closed := false, _name := none,
              _else_called := false }, ?_, ?_⟩
    · simp [ChainedCondition.new, ChainedCondition.if_then]
    · simp [ChainedCondition.otherwise, ChainedCondition.if_then]
  · intro e
    cases hp : p e <;>
      simp [ChainedCondition.apply, ChainedCondition.applyConds,
        IfThen.apply, ChainedCondition.always_true, hp]

/-! Theorems about `divide_in_chunk` (the engine behind `Stream.batch`). -/

theorem slicesGo_nil {α : Type} (cs fuel : Nat) :
    slicesGo cs fuel ([] : List α) = [] := by
  cases fuel <;> rfl

theorem slicesGo_flatten {α : Type} (cs : Nat) (hcs : 1 ≤ cs) :
    ∀ (fuel : Nat) (l : List α), l.length ≤ fuel →
      (slicesGo cs fuel l).flatten = l := by
  intro fuel
  induction fuel with
  | zero =>
    intro l hl
    have : l = [] := List.length_eq_zero.mp (Nat.le_zero.mp hl)
    simp [this, slicesGo_nil]
  | succ f ih =>
    intro l hl
    cases l with
    | nil => simp [slicesGo_nil]
    | cons x xs =>
      have hdrop : ((x :: xs).drop cs).length ≤ f := by
        simp only [List.length_drop, List.length_cons]
        simp only [List.length_cons] at hl
        omega
      simp only [slicesGo, List.flatten_cons, ih _ hdrop,
        List.take_append_drop]

theorem slicesGo_length {α : Type} (cs : Nat) (hcs : 1 ≤ cs) :
    ∀ (fuel : Nat) (l : List α), l ≠ [] → l.length ≤ fuel →
      (slicesGo cs fuel l).length = (l.length + cs - 1) / cs := by
  intro fuel
  induction fuel with
  | zero =>
    intro l hne hl
    exact absurd (List.length_eq_zero.mp (Nat.le_zero.mp hl)) hne
  | succ f ih =>
    intro l hne hl
    cases l with
    | nil => exact absurd rfl hne
    | cons x xs =>
      simp only [List.length_cons] at hl
      by_cases hd : (x :: xs).drop cs = []
      · have hle : xs.length + 1 ≤ cs := by
          have := List.drop_eq_nil_iff.mp hd
          simpa using this
        have h1 : 1 ≤ (xs.length + 1 + cs - 1) / cs :=
          (Nat.le_div_iff_mul_le hcs).mpr (by omega)
        have h2 : (xs.length + 1 + cs - 1) / cs < 2 :=
          (Nat.div_lt_iff_lt_mul hcs).mpr (by omega)
        simp only [slicesGo, hd, slicesGo_nil, List.length_cons,
          List.length_nil]
        omega
      · have hlt : cs < xs.length + 1 := by
          by_contra hcon
          exact hd (List.drop_eq_nil_iff.mpr (by simp; omega))
        have hdroplen : ((x :: xs).drop cs).length = xs.length + 1 - cs := by
          simp [List.length_drop]
        have ihd := ih ((x :: xs).drop cs) hd
          (by rw [hdroplen]; omega)
        rw [hdroplen] at ihd
        have e1 : xs.length + 1 - cs + cs - 1 = xs.length := by omega
        have e2 : xs.length + 1 + cs - 1 = xs.length + cs := by omega
        simp only [slicesGo, List.length_cons, ihd, e1, e2,
          Nat.add_div_right _ hcs]

theorem slicesGo_sizes {α : Type} (cs : Nat) (hcs : 1 ≤ cs) :
    ∀ (fuel : Nat) (l : List α), l.length ≤ fuel →
      ∀ c ∈ slicesGo cs fuel l, 1 ≤ c.length ∧ c.length ≤ cs := by
  intro fuel
  induction fuel with
  | zero =>
    intro l hl
    have : l = [] := List.length_eq_zero.mp (Nat.le_zero.mp hl)
    simp [this, slicesGo_nil]
  | succ f ih =>
    intro l hl c hc
    cases l with
    | nil => simp [slicesGo_nil] at hc
    | cons x xs =>
      simp only [List.length_cons] at hl
      simp only [slicesGo, List.mem_cons] at hc
      rcases hc with hc | hc
      · subst hc
        simp only [List.length_take, List.length_cons]
        omega
      · exact ih ((x :: xs).drop cs)
          (by simp only [List.length_drop, List.length_cons]; omega) c hc

theorem slicesGo_dropLast_full {α : Type} (cs : Nat) (hcs : 1 ≤ cs) :
    ∀ (fuel : Nat) (l : List α), l.length ≤ fuel →
      ∀ c ∈ (slicesGo cs fuel l).dropLast, c.length = cs := by
  intro fuel
  induction fuel with
  | zero =>
    intro l hl
    have : l = [] := List.length_eq_zero.mp (Nat.le_zero.mp hl)
    simp [this, slicesGo_nil]
  | succ f ih =>
    intro l hl c hc
    cases l with
    | nil => simp [slicesGo_nil] at hc
    | cons x xs =>
      simp only [List.length_cons] at hl
      by_cases hrest : slicesGo cs f ((x :: xs).drop cs) = []
      · simp [slicesGo, hrest] at hc
      · have hdne : (x :: xs).drop cs ≠ [] := by
          intro hnil
          exact hrest (by simp [hnil, slicesGo_nil])
        have hlt : cs < xs.length + 1 := by
          by_contra hcon
          exact hdne (List.drop_eq_nil_iff.mpr (by simp; omega))
        simp only [slicesGo, List.dropLast_cons_of_ne_nil hrest,
          List.mem_cons] at hc
        rcases hc with hc | hc
        · subst hc
          simp only [List.length_take, List.length_cons]
          omega
        · exact ih ((x :: xs).drop cs)
            (by simp only [List.length_drop, List.length_cons]; omega) c hc

/-- C3 fails as stated at the empty sequence: `divide_in_chunk [] n` yields
one (empty) chunk, while `ceil(0 / n) = 0` groups were claimed. -/
theorem C3_batch_counterexample :
    divide_in_chunk ([] : List Nat) 2 = [[]] ∧
    (divide_in_chunk ([] : List Nat) 2).length = 1 ∧
    (([] : List Nat).length + 2 - 1) / 2 = 0 := by
  decide

/-- C3 (amended): for `1 ≤ n`, the chunks of `divide_in_chunk docs n`
concatenate back to `docs` (consecutive elements in source order, nothing
dropped); a nonempty `docs` of length `L` yields exactly `ceil(L / n)` chunks,
all of size `n` except possibly the last, every chunk nonempty and of size at
most `n`; the empty sequence yields the single empty chunk `[[]]`. -/
theorem C3_batch_chunks {α : Type} (docs : List α) (n : Nat) (hn : 1 ≤ n) :
    (divide_in_chunk docs n).flatten = docs ∧
    (docs = [] → divide_in_chunk docs n = [[]]) ∧
    (docs ≠ [] →
      (divide_in_chunk docs n).length = (docs.length + n - 1) / n ∧
      (∀ c ∈ (divide_in_chunk docs n).dropLast, c.length = n) ∧
      (∀ c ∈ divide_in_chunk docs n, 1 ≤ c.length ∧ c.length ≤ n)) := by
  unfold divide_in_chunk
  by_cases h : docs.length ≤ n
  · simp only [if_pos h]
    refine ⟨by simp, fun hnil => by rw [hnil], fun hne => ⟨?_, by simp, ?_⟩⟩
    · have hpos : 1 ≤ docs.length := by
        cases docs with
        | nil => exact absurd rfl hne
        | cons x xs => simp
      have h1 : 1 ≤ (docs.length + n - 1) / n :=
        (Nat.le_div_iff_mul_le hn).mpr (by omega)
      have h2 : (docs.length + n - 1) / n < 2 :=
        (Nat.div_lt_iff_lt_mul hn).mpr (by omega)
      simp only [List.length_cons, List.length_nil]
      omega
    · intro c hc
      have hpos : 1 ≤ docs.length := by
        cases docs with
        | nil => exact absurd rfl hne
        | cons x xs => simp
      simp only [List.mem_cons, List.not_mem_nil, or_false] at hc
      subst hc
      omega
  · simp only [if_neg h]
    have hne : docs ≠ [] := by
      intro hnil
      subst hnil
      simp at h
    exact ⟨slicesGo_flatten n hn docs.length docs le_rfl,
      fun hnil => absurd hnil hne,
      fun _ => ⟨slicesGo_length n hn docs.length docs hne le_rfl,
        slicesGo_dropLast_full n hn docs.length docs le_rfl,
        slicesGo_sizes n hn docs.length docs le_rfl⟩⟩

theorem C3_batch_chunks_witness :
    1 ≤ 2 ∧
    ((divide_in_chunk [1, 2, 3, 4, 5] 2).flatten = [1, 2, 3, 4, 5] ∧
      (([1, 2, 3, 4, 5] : List Nat) = [] →
        divide_in_chunk [1, 2, 3, 4, 5] 2 = [[]]) ∧
      (([1, 2, 3, 4, 5] : List Nat) ≠ [] →
        (divide_in_chunk [1, 2, 3, 4, 5] 2).length =
          (([1, 2, 3, 4, 5] : List Nat).length + 2 - 1) / 2 ∧
        (∀ c ∈ (divide_in_chunk [1, 2, 3, 4, 5] 2).dropLast, c.length = 2) ∧
        (∀ c ∈ divide_in_chunk [1, 2, 3, 4, 5] 2,
          1 ≤ c.length ∧ c.length ≤ 2))) :=
  ⟨by decide, C3_batch_chunks [1, 2, 3, 4, 5] 2 (by decide)⟩

/-- C10: whenever `len(docs) <= chunk_size` — the empty sequence included —
`divide_in_chunk` yields exactly one chunk, namely the whole input itself. -/
theorem C10_small_input_single_chunk {α : Type} (docs : List α) (n : Nat)
    (h : docs.length ≤ n) :
    divide_in_chunk docs n = [docs] := by
  simp [divide_in_chunk, h]

theorem C10_small_input_single_chunk_witness :
    (([] : List Nat).length ≤ 3 ∧ divide_in_chunk ([] : List Nat) 3 = [[]]) ∧
    (([4, 5] : List Nat).length ≤ 3 ∧ divide_in_chunk [4, 5] 3 = [[4, 5]]) :=
  ⟨⟨by decide, C10_small_input_single_chunk [] 3 (by decide)⟩,
   ⟨by decide, C10_small_input_single_chunk [4, 5] 3 (by decide)⟩⟩

/-- The repository's own `test_batch` and `test_divide_in_chunk` vectors,
checked against the embedding. -/
theorem divide_in_chunk_matches_tests :
    divide_in_chunk [0, 1, 2, 3, 4, 5, 6, 7, 8, 9] 3 =
      [[0, 1, 2], [3, 4, 5], [6, 7, 8], [9]] ∧
    divide_in_chunk [2, 3, 4, 5, 6, 7, 8, 9, 10, 11] 3 =
      [[2, 3, 4], [5, 6, 7], [8, 9, 10], [11]] := by
  decide

/-! Theorems about `Stream.reduce` and `Stream.zip_longest` (both modelled
from the spec, anchored on the repository's tests). -/

/-- C2: `reduce` with no `initial_point` is `Optional.empty()` on the empty
source and the left fold seeded with the first element otherwise; with
`initial_point = v` it is `Optional.of(v)` on the empty source and the left
fold seeded with `v` otherwise — all folds in source order. -/
theorem C2_reduce_fold {α : Type} (op : α → α → α) (v : α) :
    streamReduce ([] : List α) op none = none ∧
    (∀ (x : α) (xs : List α),
      streamReduce (x :: xs) op none = some (xs.foldl op x)) ∧
    streamReduce ([] : List α) op (some v) = some v ∧
    (∀ s : List α, streamReduce s op (some v) = some (s.foldl op v)) :=
  ⟨rfl, fun _ _ => rfl, rfl, fun _ => rfl⟩

/-- The repository's `test_reduce` vectors, checked against the model:
`Stream(range(3,9)).reduce(sum) = sum(range(3,9))`, `Stream([]) = EMPTY`,
`Stream([1]) = Optional(1)`, `Stream([1,2]) = Optional(3)`, and with
`initial_point = 10` the empty, one- and two-element sources give 10, 11
and 13. -/
theorem streamReduce_matches_tests :
    streamReduce [3, 4, 5, 6, 7, 8] (fun a b => a + b) none = some 33 ∧
    streamReduce ([] : List Nat) (fun a b => a + b) none = none ∧
    streamReduce [1] (fun a b => a + b) none = some 1 ∧
    streamReduce [1, 2] (fun a b => a + b) none = some 3 ∧
    streamReduce ([] : List Nat) (fun a b => a + b) (some 10) = some 10 ∧
    streamReduce [1] (fun a b => a + b) (some 10) = some 11 ∧
    streamReduce [1, 2] (fun a b => a + b) (some 10) = some 13 := by
  decide

/-- C7: `zip_longest` produces exactly `max` of all `k + 1` input lengths
rows; row `i` holds, for every input sequence, its element at position `i`
when still available and `fillvalue` once that sequence is exhausted; with
`after = true` the stream's own entry comes first followed by the other
sequences in argument order, with `after = false` the others come first and
the own entry last. -/
theorem C7_zip_longest_shape {α : Type} (self : List α)
    (others : List (List α)) (fillvalue : α) :
    (∀ after : Bool,
      (zip_longest self others after fillvalue).length = maxLen self others) ∧
    (∀ i : Nat, i < maxLen self others →
      (zip_longest self others true fillvalue)[i]? =
        some (getFill self i fillvalue ::
          others.map (fun o => getFill o i fillvalue)) ∧
      (zip_longest self others false fillvalue)[i]? =
        some (others.map (fun o => getFill o i fillvalue) ++
          [getFill self i fillvalue])) ∧
    (∀ (l : List α) (i : Nat),
      (∀ h : i < l.length, getFill l i fillvalue = l.get ⟨i, h⟩) ∧
      (l.length ≤ i → getFill l i fillvalue = fillvalue)) := by
  refine ⟨?_, ?_, ?_⟩
  · intro after
    simp [zip_longest]
  · intro i hi
    constructor <;>
      simp [zip_longest, List.getElem?_map, List.getElem?_range hi]
  · intro l i
    constructor
    · intro h
      simp [getFill, List.getElem?_eq_getElem h, List.get_eq_getElem]
    · intro h
      simp [getFill, List.getElem?_eq_none h]

theorem C7_zip_longest_shape_witness :
    (5 : Nat) < maxLen ([4, 1, 2, 3] : List Int)
      [[0, 1, 2, 3, 4, 5, 6, 7, 8], [2, 3, 4, 5, 6, 7, 8]] ∧
    (zip_longest ([4, 1, 2, 3] : List Int)
        [[0, 1, 2, 3, 4, 5, 6, 7, 8], [2, 3, 4, 5, 6, 7, 8]] true (-1))[5]? =
      some (getFill ([4, 1, 2, 3] : List Int) 5 (-1) ::
        ([[0, 1, 2, 3, 4, 5, 6, 7, 8],
          [2, 3, 4, 5, 6, 7, 8]] : List (List Int)).map
          (fun o => getFill o 5 (-1))) ∧
    (zip_longest ([4, 1, 2, 3] : List Int)
        [[0, 1, 2, 3, 4, 5, 6, 7, 8], [2, 3, 4, 5, 6, 7, 8]] false (-1))[5]? =
      some (([[0, 1, 2, 3, 4, 5, 6, 7, 8],
          [2, 3, 4, 5, 6, 7, 8]] : List (List Int)).map
          (fun o => getFill o 5 (-1)) ++
        [getFill ([4, 1, 2, 3] : List Int) 5 (-1)]) :=
  ⟨by decide,
    ((C7_zip_longest_shape ([4, 1, 2, 3] : List Int)
      [[0, 1, 2, 3, 4, 5, 6, 7, 8], [2, 3, 4, 5, 6, 7, 8]] (-1)).2.1 5
      (by decide)).1,
    ((C7_zip_longest_shape ([4, 1, 2, 3] : List Int)
      [[0, 1, 2, 3, 4, 5, 6, 7, 8], [2, 3, 4, 5, 6, 7, 8]] (-1)).2.1 5
      (by decide)).2⟩

/-- The repository's `test_zip_longest` vectors, checked against the model:
`Stream([4,1,2,3]).zip_longest(range(9), range(2,9), fillvalue=-1)` and the
`after=False, fillvalue=None` variant (the latter over `Option Int` so that
the `None` fill is expressible). -/
theorem zip_longest_matches_tests :
    zip_longest ([4, 1, 2, 3] : List Int)
        [[0, 1, 2, 3, 4, 5, 6, 7, 8], [2, 3, 4, 5, 6, 7, 8]] true (-1) =
      [[4, 0, 2], [1, 1, 3], [2, 2, 4], [3, 3, 5], [-1, 4, 6], [-1, 5, 7],
        [-1, 6, 8], [-1, 7, -1], [-1, 8, -1]] ∧
    zip_longest (([4, 1, 2, 3] : List Int).map some)
        [([0, 1, 2, 3, 4, 5, 6, 7, 8] : List Int).map some,
          ([2, 3, 4, 5, 6, 7, 8] : List Int).map some] false none =
      [[some 0, some 2, some 4], [some 1, some 3, some 1],
        [some 2, some 4, some 2], [some 3, some 5, some 3],
        [some 4, some 6, none], [some 5, some 7, none],
        [some 6, some 8, none], [some 7, none, none],
        [some 8, none, none]] := by
  constructor <;> decide

/-! Theorems about `default_name` / `__str__` (the `describe` facility). -/

/-- Whether a description string ends the way the `default_name` texts for an
`otherwise`-closed instance do: its last 14 characters are those of
`... and \x27else\x27 condition` (equivalently of
`'if' and 'else' condition`).  The 14-character window is long enough to
tell the `'else'` texts apart from every non-`else` text and short enough to
lie inside the literal tail of each format string, past the interpolated
branch count. -/
def hasElseTail (s : String) : Bool :=
  decide (s.data.reverse.take 14 = ("lse\x27 condition").data.reverse)

theorem hasElseTail_append (a b : String) (h : 14 ≤ b.data.length) :
    hasElseTail (a ++ b) = hasElseTail b := by
  unfold hasElseTail
  rw [String.data_append, List.reverse_append,
    List.take_append_of_le_length (by simpa using h)]

theorem hasElseTail_default_name_of_else {α : Type} (cc : ChainedCondition α)
    (h2 : 2 ≤ cc._conditions.length) (h3 : cc._else_called = true) :
    hasElseTail cc.default_name = true := by
  have h0 : ¬cc._conditions.length = 0 := by omega
  have h1 : ¬cc._conditions.length = 1 := by omega
  simp only [ChainedCondition.default_name, h0, h1, h3, if_false, if_true]
  by_cases hl2 : cc._conditions.length = 2
  · rw [if_pos hl2]
    decide
  · rw [if_neg hl2]
    by_cases hl3 : cc._conditions.length > 3
    · rw [if_pos hl3, hasElseTail_append _ _ (by decide)]
      decide
    · rw [if_neg hl3, hasElseTail_append _ _ (by decide)]
      decide

theorem hasElseTail_default_name_of_not_else {α : Type}
    (cc : ChainedCondition α) (h3 : cc._else_called = false) :
    hasElseTail cc.default_name = false := by
  simp only [ChainedCondition.default_name, h3, Bool.false_eq_true, if_false]
  by_cases hl0 : cc._conditions.length = 0
  · rw [if_pos hl0]
    decide
  · rw [if_neg hl0]
    by_cases hl1 : cc._conditions.length = 1
    · rw [if_pos hl1]
      decide
    · rw [if_neg hl1]
      by_cases hl2 : cc._conditions.length > 2
      · rw [if_pos hl2, hasElseTail_append _ _ (by decide)]
        decide
      · rw [if_neg hl2, hasElseTail_append _ _ (by decide)]
        decide

/-- C9: the default description reads nothing but the branch count and the
`_else_called` flag (so it reports exactly branch count and fallback
presence); `__str__` is the default description whenever no explicit name was
given; and closing an OPEN, fallback-free instance with at least one branch by
`otherwise` yields an instance whose description carries the `'else'` tail,
while closing the same instance by `done` yields one whose description does
not. -/
theorem C9_describe {α : Type} (base : ChainedCondition α) (f : α → α)
    (h1 : base._closed = false) (h2 : base._conditions ≠ [])
    (h3 : base._else_called = false) :
    (∀ cc1 cc2 : ChainedCondition α,
      cc1._conditions.length = cc2._conditions.length →
      cc1._else_called = cc2._else_called →
      cc1.default_name = cc2.default_name) ∧
    (∀ cc : ChainedCondition α, cc._name = none → cc.toStr = cc.default_name) ∧
    (∃ ccO : ChainedCondition α,
      base.otherwise f = .ok ccO ∧
      hasElseTail ccO.default_name = true ∧
      hasElseTail base.done.default_name = false) := by
  refine ⟨?_, ?_, ?_⟩
  · intro cc1 cc2 hlen hflag
    simp only [ChainedCondition.default_name, hlen, hflag]
  · intro cc hname
    simp [ChainedCondition.toStr, hname]
  · obtain ⟨b, hok, -, -⟩ := (C5_otherwise base f h1).2 h2
    refine ⟨_, hok, ?_, ?_⟩
    · apply hasElseTail_default_name_of_else
      · simp only [List.length_append, List.length_cons, List.length_nil]
        cases hc : base._conditions with
        | nil => exact absurd hc h2
        | cons y ys => simp [hc]
      · rfl
    · exact hasElseTail_default_name_of_not_else _ h3

theorem C9_describe_witness :
    ccOpenOne._closed = false ∧ ccOpenOne._conditions ≠ [] ∧
    ccOpenOne._else_called = false ∧
    ((∀ cc1 cc2 : ChainedCondition Nat,
        cc1._conditions.length = cc2._conditions.length →
        cc1._else_called = cc2._else_called →
        cc1.default_name = cc2.default_name) ∧
      (∀ cc : ChainedCondition Nat, cc._name = none →
        cc.toStr = cc.default_name) ∧
      (∃ ccO : ChainedCondition Nat,
        ccOpenOne.otherwise (fun x => x + 5) = .ok ccO ∧
        hasElseTail ccO.default_name = true ∧
        hasElseTail ccOpenOne.done.default_name = false)) :=
  ⟨rfl, by simp [ccOpenOne], rfl,
    C9_describe ccOpenOne (fun x => x + 5) rfl (by simp [ccOpenOne]) rfl⟩

end Basics
